import Mathlib

/-!
Verification of the URL-analysis core of the rep_monitoring repository
(src/main.py) against its natural-language specification.

The Python source is shallowly embedded below.  Pure string operations of
Python (strip, substring test, join, split) are modelled by executable
functions over the character list of a string.  The network is modelled by
an oracle of type String to FetchResult, and the parsed HTML document by an
abstract record of the fields BeautifulSoup delivers to the code (title
string, canonical href, robots content, anchor tags).  The result
dictionary of analyze_url is modelled by an association list with the
in-place update semantics of Python dictionaries.
-/

/-- Model of the Python substring relation: true when the first string
occurs inside the second.  The head case mirrors the Python rule that the
empty string occurs in every string. -/
def chListLe : List Char → List Char → Bool
  | [], _ => true
  | _ :: _, [] => false
  | a :: as, b :: bs => a == b && chListLe as bs

/-- Occurrence of a character pattern anywhere in a character list. -/
def chOccurs (pat : List Char) : List Char → Bool
  | [] => pat.isEmpty
  | c :: rest => chListLe pat (c :: rest) || chOccurs pat rest

/-- Model of the Python operator in on strings. -/
def pyIn (pat s : String) : Bool := chOccurs pat.data s.data

/-- Splits a character list at the first occurrence of a pattern,
returning the part before and the part after the pattern. -/
def splitFirst (pat : List Char) : List Char → Option (List Char × List Char)
  | [] => if pat.isEmpty then some ([], []) else none
  | c :: rest =>
    if chListLe pat (c :: rest) then some ([], (c :: rest).drop pat.length)
    else match splitFirst pat rest with
         | some (l, r) => some (c :: l, r)
         | none => none

/-- Takes characters until the predicate holds. -/
def takeUntil (p : Char → Bool) : List Char → List Char
  | [] => []
  | c :: rest => if p c then [] else c :: takeUntil p rest

/-- Splits a character list on a separator character, like the Python
split method with a one-character separator. -/
def splitCh (sep : Char) : List Char → List (List Char)
  | [] => [[]]
  | c :: rest =>
    let r := splitCh sep rest
    if c == sep then [] :: r
    else match r with
         | [] => [[c]]
         | h :: t => (c :: h) :: t

/-- Model of the Python str.join method. -/
def pyJoin (sep : String) : List String → String
  | [] => ""
  | [x] => x
  | x :: xs => x ++ sep ++ pyJoin sep xs

/-- Model of the Python str.strip method: removes leading and trailing
whitespace. -/
def pyStrip (s : String) : String :=
  ⟨((s.data.dropWhile Char.isWhitespace).reverse.dropWhile Char.isWhitespace).reverse⟩

/-- Lowercases every character of a string. -/
def lowerStr (s : String) : String := ⟨s.data.map Char.toLower⟩

/-- Finite fragment of the public-suffix rule set used by the tldextract
library, sufficient for the hosts appearing in this development.  Each
rule is the label sequence of one public suffix. -/
def suffixRules : List (List String) :=
  [ [ "com"], [ "net"], [ "org"], [ "io"], [ "edu"], [ "gov"],
    [ "uk"], [ "co", "uk"], [ "org", "uk"], [ "ac", "uk"],
    [ "de"], [ "fr"], [ "it"]]

/-- Extracts the lowercased host part of a URL or bare domain string:
drops the scheme, the path, query and fragment, userinfo and port.
Modelled from the host extraction performed by tldextract. -/
def hostOf (s : String) : String :=
  let t := match splitFirst "://".data s.data with
           | some (_, rest) => rest
           | none => s.data
  let t := takeUntil (fun c => c == '/' || c == '?' || c == '#') t
  let t := match splitFirst [ '@'] t with
           | some (_, r) => r
           | none => t
  let t := takeUntil (fun c => c == ':') t
  ⟨t.map Char.toLower⟩

/-- Length of the longest public-suffix rule matching the tail of the
label list. -/
def suffixMatchLen (labels : List String) : Nat :=
  suffixRules.foldl
    (fun best r =>
      if labels.drop (labels.length - r.length) == r && best < r.length then r.length
      else best) 0

/-- Model of tldextract.extract(s).registered_domain: the public suffix
plus one label, or the empty string when the host has no known suffix or
is itself a bare suffix. -/
def registeredDomain (s : String) : String :=
  let labels := (splitCh '.' (hostOf s).data).map (fun l => (⟨l⟩ : String))
  let k := suffixMatchLen labels
  if k = 0 || labels.length ≤ k then ""
  else pyJoin "." (labels.drop (labels.length - k - 1))

/-- Model of urllib.parse.urljoin restricted to the reference shapes the
code meets: absolute URLs, scheme-relative, root-relative and plain
relative references; dot segments are not normalized. -/
def urljoin (base url : String) : String :=
  if (splitFirst "://".data url.data).isSome then url
  else
    let p := match splitFirst "://".data base.data with
             | some (sch, r) => ((⟨sch⟩ : String), r)
             | none => (( "" : String), base.data)
    if chListLe "//".data url.data then p.1 ++ ":" ++ url
    else
      let host : String := ⟨takeUntil (fun c => c == '/') p.2⟩
      if chListLe "/".data url.data then p.1 ++ "://" ++ host ++ url
      else if url = "" then base
      else
        let segs := splitCh '/' p.2
        if segs.length ≤ 1 then p.1 ++ "://" ++ host ++ "/" ++ url
        else p.1 ++ "://" ++ pyJoin "/" ((segs.map (fun l => (⟨l⟩ : String))).dropLast) ++ "/" ++ url

/-- Values held by the result dictionary: Python strings or ints. -/
inductive Value where
  | str (s : String)
  | int (n : Nat)
deriving DecidableEq, Repr

/-- Result dictionary of analyze_url, with insertion order. -/
abbrev Record := List (String × Value)

/-- Dictionary lookup. -/
def rget : Record → String → Option Value
  | [], _ => none
  | (k, v) :: r, key => if k = key then some v else rget r key

/-- Dictionary assignment with Python semantics: an existing key keeps its
position and gets the new value, a new key is appended. -/
def rset : Record → String → Value → Record
  | [], key, v => [ (key, v)]
  | (k, w) :: r, key, v => if k = key then (k, v) :: r else (k, w) :: rset r key v

/-- Keys of a record, in insertion order. -/
def rkeys (r : Record) : List String := r.map Prod.fst

/-- Anchor tag as extracted by BeautifulSoup: the raw href attribute, the
text (get_text with strip is modelled as pyStrip of this field), and the
rel attribute token list, empty when the attribute is absent or empty. -/
structure ATag where
  href : String
  text : String
  rel : List String
deriving DecidableEq

/-- Parsed document as consumed by the code: the title string when the
title tag has one, the href of the first canonical link tag when present
with an href attribute, the robots meta tag (outer option: tag presence,
inner option: presence of its content attribute), and the anchor tags
with an href, in document order. -/
structure Doc where
  title : Option String
  canonical : Option String
  robots : Option (Option String)
  anchors : List ATag
deriving DecidableEq

/-- Outcome of requests.get: either a response with a status code and the
parse outcome of its body, or a raised RequestException with its message.
The page field holds none when both the lxml and the html.parser parse of
the text fail. -/
inductive FetchResult where
  | success (code : Nat) (page : Option Doc)
  | error (msg : String)
deriving DecidableEq

/-- Spreadsheet row: the lookups row.get with default empty string for the
TARGET PAGE and ANCHOR columns of each slot, and the Page URL column. -/
structure Row where
  target : Nat → String
  anchor : Nat → String
  pageUrl : String

/-- Key of the per-slot link-and-anchor status column. -/
def statusKey (i : Nat) : String := "Link and anchor status " ++ toString i

/-- Key of the per-slot rel column. -/
def relKey (i : Nat) : String := "REL " ++ toString i

/-- Title value computed at line 59 of src/main.py. -/
def titleVal : Option String → String
  | some s => if s = "" then "" else pyStrip s
  | none => ""

/-- CANONICAL value computed at lines 65 to 73 of src/main.py. -/
def canonVal (canonical : Option String) (page_url : String) : String :=
  match canonical with
  | some h =>
      if h = "" then "not found"
      else if pyStrip h = page_url then "self canonical" else pyStrip h
  | none => "not found"

/-- ROBOTS value computed at lines 76 to 80 of src/main.py: the content
attribute of the robots meta tag, the string error when the tag lacks the
attribute (the KeyError is caught), the string not found when the tag is
absent. -/
def robotsVal : Option (Option String) → String
  | some (some c) => c
  | some none => "error"
  | none => "not found"

/-- Rel string of one anchor: the space join of the rel tokens, or the
string none when the attribute is absent or empty (line 98). -/
def relStr (rel : List String) : String :=
  if rel.isEmpty then "none" else pyJoin " " rel

/-- Status text written when the target page is found inside a matching
link (lines 106 to 112). -/
def statusText (anchor : String) (a : ATag) : String :=
  if anchor ≠ "" then
    if pyStrip a.text = anchor then "true"
    else "anchor mismatch (found: " ++ pyStrip a.text ++ ")"
  else "link found, no anchor provided"

/-- State threaded through the link loop of lines 83 to 115: the result
dictionary, the three filtered lists, and the found flag. -/
structure ScanState where
  res : Record
  links : List String
  anchors : List String
  rels : List String
  found : Bool

/-- Body of the for loop over anchor tags (lines 89 to 115). -/
def linkStep (pu rx target anchor : String) (i : Nat) (st : ScanState) (a : ATag) : ScanState :=
  let full_link := urljoin pu a.href
  let link_domain := registeredDomain full_link
  if link_domain = rx then
    let st1 := { st with links := st.links ++ [full_link],
                         anchors := st.anchors ++ [pyStrip a.text],
                         rels := st.rels ++ [relStr a.rel] }
    if pyIn target full_link && !st1.found then
      { st1 with
          res := rset (rset st1.res (relKey i) (.str (relStr a.rel)))
                      (statusKey i) (.str (statusText anchor a)),
          found := true }
    else st1
  else st

/-- The full link loop as a fold over the anchor tags. -/
def linkScan (pu rx target anchor : String) (i : Nat) (st : ScanState) (tags : List ATag) : ScanState :=
  tags.foldl (linkStep pu rx target anchor i) st

/-- Link check block of lines 82 to 122: runs the loop, writes the final
status when no match was found, and appends the three joined lists capped
at 30 entries. -/
def link_check (pu root target anchor : String) (i : Nat) (soup : Doc) (result : Record) : Record :=
  let root_extracted := registeredDomain root
  let st := linkScan pu root_extracted target anchor i
              { res := result, links := [], anchors := [], rels := [], found := false }
              soup.anchors
  let result := if st.found then st.res else rset st.res (statusKey i) (.str "link not found")
  let result := rset result "Links to root domain" (.str (pyJoin ", " (st.links.take 30)))
  let result := rset result "Anchors to root domain" (.str (pyJoin ", " (st.anchors.take 30)))
  rset result "Rel attributes to root domain" (.str (pyJoin ", " (st.rels.take 30)))

/-- Embedding of analyze_url (lines 26 to 128 of src/main.py).  The fetch
oracle stands for requests.get on the stripped page URL; the timeout only
influences which oracle outcome occurs, so it is absorbed into the
oracle. -/
def analyze_url (fetch : String → FetchResult) (row : Row) (index : Nat) (root_domain : String) : Record :=
  let result : Record := [ (statusKey index, Value.str ""), (relKey index, Value.str "")]
  let target := pyStrip (row.target index)
  let anchor := pyStrip (row.anchor index)
  let page_url := pyStrip row.pageUrl
  if target = "" then result
  else
    match fetch page_url with
    | .error e =>
        rset (rset result (statusKey index) (.str ( "Request error: " ++ e)))
             "STATUS CODE" (.str "error")
    | .success code page =>
        let result := rset result "STATUS CODE" (.int code)
        if code ≠ 200 then result
        else
          match page with
          | none => rset result (statusKey index) (.str "HTML parsing error")
          | some soup =>
              let result := rset result "PAGE TITLE" (.str (titleVal soup.title))
              let result := rset result "CANONICAL" (.str (canonVal soup.canonical page_url))
              let result := rset result "ROBOTS" (.str (robotsVal soup.robots))
              link_check page_url root_domain target anchor index soup result

/-- Merge of the three per-slot results into one row record (lines 136 to
139), with Python dict.update semantics. -/
def dictUpdate (base r : Record) : Record := r.foldl (fun b kv => rset b kv.1 kv.2) base

/-- Record produced for one spreadsheet row: the loop for i in range(1, 4)
of process_rows. -/
def row_result (fetch : String → FetchResult) (root : String) (row : Row) : Record :=
  ([1, 2, 3] : List Nat).foldl (fun b i => dictUpdate b (analyze_url fetch row i root)) []

/-- Row loop of process_rows (lines 131 to 141) with the break at the row
limit, carrying the positional index. -/
def process_rows_aux (fetch : String → FetchResult) (root : String) (limit : Nat) : Nat → List Row → List Record
  | _, [] => []
  | idx, row :: rest =>
      if limit ≤ idx then []
      else row_result fetch root row :: process_rows_aux fetch root limit (idx + 1) rest

/-- Embedding of process_rows. -/
def process_rows (fetch : String → FetchResult) (df : List Row) (limit : Nat) (root : String) : List Record :=
  process_rows_aux fetch root limit 0 df

/-- Fetch events: the start and the completion of one requests.get call. -/
inductive Ev where
  | start (url : String)
  | done (url : String)
deriving DecidableEq

/-- Fetch events of one analyze_url invocation: no call when the target
cell is empty, otherwise exactly one call on the stripped page URL. -/
def analyze_events (row : Row) (index : Nat) : List Ev :=
  if pyStrip (row.target index) = "" then []
  else [Ev.start (pyStrip row.pageUrl), Ev.done (pyStrip row.pageUrl)]

/-- Fetch events of one row of process_rows. -/
def row_events (row : Row) : List Ev :=
  analyze_events row 1 ++ analyze_events row 2 ++ analyze_events row 3

/-- Fetch events of the row loop of process_rows, in execution order. -/
def process_events_aux (limit : Nat) : Nat → List Row → List Ev
  | _, [] => []
  | idx, row :: rest =>
      if limit ≤ idx then []
      else row_events row ++ process_events_aux limit (idx + 1) rest

/-- Fetch events of a whole process_rows run. -/
def process_events (df : List Row) (limit : Nat) : List Ev :=
  process_events_aux limit 0 df

/-- Number of fetches in flight after a sequence of events. -/
def inFlight (p : List Ev) : Int :=
  p.foldl (fun c e => match e with | .start _ => c + 1 | .done _ => c - 1) 0

/-- Domain-matching anchor tags of a page, in document order: the tags the
loop appends to the filtered lists. -/
def matchingTags (pu rx : String) (tags : List ATag) : List ATag :=
  tags.filter (fun a => decide (registeredDomain (urljoin pu a.href) = rx))

/-- Qualifying test of the inner target check: the link domain matches the
root and the target string occurs in the absolute link. -/
def qual (pu rx target : String) (a : ATag) : Bool :=
  decide (registeredDomain (urljoin pu a.href) = rx) && pyIn target (urljoin pu a.href)

/-- The status cell of slot i carries an error text: the parse-failure
text or a request-error text. -/
def errTexts (r : Record) (i : Nat) : Prop :=
  rget r (statusKey i) = some (Value.str "HTML parsing error") ∨
  ∃ m, rget r (statusKey i) = some (Value.str ( "Request error: " ++ m))

/-- Keys of the result dictionary written only by the extraction stage. -/
def extractionKeys : List String :=
  [ "PAGE TITLE", "CANONICAL", "ROBOTS",
    "Links to root domain", "Anchors to root domain", "Rel attributes to root domain"]

/-- Event block of a single task: empty or one start-done pair. -/
def okBlock (b : List Ev) : Prop := b = [] ∨ ∃ u, b = [Ev.start u, Ev.done u]

/-- Appending on the right preserves the head character of the character
list of a string. -/
theorem headOfApp (t u : String) (c : Char) (h : t.data.head? = some c) :
    (t ++ u).data.head? = some c := by
  rw [String.data_append]
  cases ht : t.data with
  | nil => rw [ht] at h; cases h
  | cons a l =>
      rw [ht] at h
      simp only [List.head?] at h
      simpa using h

/-- Strings with distinct head characters are distinct. -/
theorem str_ne_of_head {s t : String} {c d : Char} (hs : s.data.head? = some c)
    (ht : t.data.head? = some d) (hcd : c ≠ d) : s ≠ t := by
  intro h
  rw [h] at hs
  rw [hs] at ht
  exact hcd (Option.some.inj ht)

/-- Reading the key just written returns the new value. -/
theorem rget_rset_self : ∀ (r : Record) (k : String) (v : Value), rget (rset r k v) k = some v
  | [], k, v => by simp [rset, rget]
  | (k1, w) :: r, k, v => by
      by_cases h : k1 = k
      · simp [rset, h, rget]
      · simp [rset, h, rget, rget_rset_self r k v]

/-- Writing one key leaves every other key unchanged. -/
theorem rget_rset_ne : ∀ (r : Record) (k k2 : String) (v : Value), k2 ≠ k →
    rget (rset r k v) k2 = rget r k2
  | [], k, k2, v, h => by
      have h2 : ¬ k = k2 := fun e => h e.symm
      simp [rset, rget, h2]
  | (k1, w) :: r, k, k2, v, h => by
      by_cases h1 : k1 = k
      · subst h1
        have h2 : ¬ k1 = k2 := fun e => h e.symm
        simp [rset, rget, h2]
      · by_cases h2 : k1 = k2
        · simp [rset, rget, h1, h2, h]
        · simp [rset, rget, h1, h2, rget_rset_ne r k k2 v h]

/-- Consing a pair conses its key. -/
theorem rkeys_cons (k : String) (v : Value) (r : Record) : rkeys ((k, v) :: r) = k :: rkeys r := rfl

/-- Writing an existing key preserves the key list. -/
theorem rkeys_rset_mem : ∀ (r : Record) (k : String) (v : Value), k ∈ rkeys r →
    rkeys (rset r k v) = rkeys r
  | [], k, v, h => by simp [rkeys] at h
  | (k1, w) :: r, k, v, h => by
      by_cases h1 : k1 = k
      · simp [rset, h1, rkeys]
      · have h2 : k ∈ rkeys r := by
          rcases List.mem_cons.mp h with h3 | h3
          · exact absurd h3.symm h1
          · exact h3
        have e : rset ((k1, w) :: r) k v = (k1, w) :: rset r k v := by simp [rset, h1]
        rw [e, rkeys_cons, rkeys_cons, rkeys_rset_mem r k v h2]

/-- Writing a fresh key appends it to the key list. -/
theorem rkeys_rset_not_mem : ∀ (r : Record) (k : String) (v : Value), k ∉ rkeys r →
    rkeys (rset r k v) = rkeys r ++ [k]
  | [], k, v, _ => by simp [rset, rkeys]
  | (k1, w) :: r, k, v, h => by
      have h1 : k1 ≠ k := by
        intro e
        exact h (by rw [← e]; exact List.mem_cons_self _ _)
      have h2 : k ∉ rkeys r := fun e => h (List.mem_cons_of_mem k1 e)
      have e : rset ((k1, w) :: r) k v = (k1, w) :: rset r k v := by simp [rset, h1]
      rw [e, rkeys_cons, rkeys_rset_not_mem r k v h2, rkeys_cons]
      simp


/-- Unfolding of the loop on an empty tag list. -/
theorem linkScan_nil (pu rx t anc : String) (i : Nat) (st : ScanState) :
    linkScan pu rx t anc i st [] = st := by
  simp only [linkScan, List.foldl_nil]

/-- Unfolding of the loop on a tag list head. -/
theorem linkScan_cons (pu rx t anc : String) (i : Nat) (st : ScanState) (a : ATag)
    (tags : List ATag) :
    linkScan pu rx t anc i st (a :: tags) =
    linkScan pu rx t anc i (linkStep pu rx t anc i st a) tags := by
  simp only [linkScan, List.foldl_cons]

/-- A loop step after a match is found never touches the result dictionary
and keeps the flag. -/
theorem linkStep_found (pu rx t anc : String) (i : Nat) (st : ScanState) (a : ATag)
    (h : st.found = true) :
    (linkStep pu rx t anc i st a).res = st.res ∧ (linkStep pu rx t anc i st a).found = true := by
  by_cases hd : registeredDomain (urljoin pu a.href) = rx
  · simp [linkStep, hd, h]
  · simp [linkStep, hd, h]

/-- Once the flag is set, the loop leaves the result dictionary alone. -/
theorem linkScan_found (pu rx t anc : String) (i : Nat) (tags : List ATag) :
    ∀ (st : ScanState), st.found = true →
    (linkScan pu rx t anc i st tags).res = st.res ∧ (linkScan pu rx t anc i st tags).found = true := by
  induction tags with
  | nil => intro st h; exact ⟨rfl, h⟩
  | cons a tags ih =>
      intro st h
      have h2 := linkStep_found pu rx t anc i st a h
      rw [linkScan_cons]
      have ih2 := ih (linkStep pu rx t anc i st a) h2.2
      exact ⟨ih2.1.trans h2.1, ih2.2⟩

/-- A step on a domain-matching tag appends that tag to the three lists. -/
theorem linkStep_lists_pos (pu rx t anc : String) (i : Nat) (st : ScanState) (a : ATag)
    (hd : registeredDomain (urljoin pu a.href) = rx) :
    (linkStep pu rx t anc i st a).links = st.links ++ [urljoin pu a.href] ∧
    (linkStep pu rx t anc i st a).anchors = st.anchors ++ [pyStrip a.text] ∧
    (linkStep pu rx t anc i st a).rels = st.rels ++ [relStr a.rel] := by
  by_cases hin : (pyIn t (urljoin pu a.href) && !st.found) = true
  · simp [linkStep, hd, hin]
  · simp [linkStep, hd, hin]

/-- A step on a non-matching tag is the identity. -/
theorem linkStep_skip (pu rx t anc : String) (i : Nat) (st : ScanState) (a : ATag)
    (hd : ¬ registeredDomain (urljoin pu a.href) = rx) :
    linkStep pu rx t anc i st a = st := by
  simp [linkStep, hd]

/-- The loop appends exactly the domain-matching tags, in document order,
to each of the three lists. -/
theorem linkScan_lists (pu rx t anc : String) (i : Nat) (tags : List ATag) :
    ∀ (st : ScanState),
    (linkScan pu rx t anc i st tags).links =
      st.links ++ (matchingTags pu rx tags).map (fun a => urljoin pu a.href) ∧
    (linkScan pu rx t anc i st tags).anchors =
      st.anchors ++ (matchingTags pu rx tags).map (fun a => pyStrip a.text) ∧
    (linkScan pu rx t anc i st tags).rels =
      st.rels ++ (matchingTags pu rx tags).map (fun a => relStr a.rel) := by
  induction tags with
  | nil => intro st; simp [linkScan_nil, matchingTags]
  | cons a tags ih =>
      intro st
      rw [linkScan_cons]
      have ih2 := ih (linkStep pu rx t anc i st a)
      by_cases hd : registeredDomain (urljoin pu a.href) = rx
      · have hs := linkStep_lists_pos pu rx t anc i st a hd
        have hm : matchingTags pu rx (a :: tags) = a :: matchingTags pu rx tags := by
          simp [matchingTags, hd]
        rw [hm]
        refine ⟨?_, ?_, ?_⟩
        · rw [ih2.1, hs.1]; simp
        · rw [ih2.2.1, hs.2.1]; simp
        · rw [ih2.2.2, hs.2.2]; simp
      · have hm : matchingTags pu rx (a :: tags) = matchingTags pu rx tags := by
          simp [matchingTags, hd]
        rw [hm, linkStep_skip pu rx t anc i st a hd]
        exact ih st

/-- A qualifying step on an unmatched state writes the rel value and the
status text and raises the flag, leaving the dictionary otherwise to the
two written keys. -/
theorem linkStep_hit (pu rx t anc : String) (i : Nat) (st : ScanState) (a : ATag)
    (hf : st.found = false) (hd : registeredDomain (urljoin pu a.href) = rx)
    (hin : pyIn t (urljoin pu a.href) = true) :
    (linkStep pu rx t anc i st a).res =
      rset (rset st.res (relKey i) (Value.str (relStr a.rel)))
           (statusKey i) (Value.str (statusText anc a)) ∧
    (linkStep pu rx t anc i st a).found = true := by
  simp [linkStep, hd, hin, hf]

/-- A non-qualifying step neither writes the dictionary nor raises the
flag. -/
theorem linkStep_miss (pu rx t anc : String) (i : Nat) (st : ScanState) (a : ATag)
    (h : qual pu rx t a = false) :
    (linkStep pu rx t anc i st a).res = st.res ∧
    (linkStep pu rx t anc i st a).found = st.found := by
  by_cases hd : registeredDomain (urljoin pu a.href) = rx
  · have hin : pyIn t (urljoin pu a.href) = false := by
      simpa [qual, hd] using h
    simp [linkStep, hd, hin]
  · simp [linkStep, hd]

/-- Characterization of the dictionary and the flag after the loop on an
unmatched initial state: the first qualifying tag, when one exists, alone
determines both written cells; with no qualifying tag the dictionary is
untouched. -/
theorem linkScan_res (pu rx t anc : String) (i : Nat) (tags : List ATag) :
    ∀ (st : ScanState), st.found = false →
    ((linkScan pu rx t anc i st tags).res =
      match tags.find? (qual pu rx t) with
      | some a => rset (rset st.res (relKey i) (Value.str (relStr a.rel)))
                       (statusKey i) (Value.str (statusText anc a))
      | none => st.res) ∧
    (linkScan pu rx t anc i st tags).found = (tags.find? (qual pu rx t)).isSome := by
  induction tags with
  | nil => intro st h; exact ⟨rfl, by simp [linkScan_nil, h]⟩
  | cons a tags ih =>
      intro st h
      rw [linkScan_cons]
      by_cases hq : qual pu rx t a = true
      · have hd : registeredDomain (urljoin pu a.href) = rx := by
          have := hq
          simp [qual] at this
          exact this.1
        have hin : pyIn t (urljoin pu a.href) = true := by
          have := hq
          simp [qual] at this
          exact this.2
        have hstep := linkStep_hit pu rx t anc i st a h hd hin
        have hfound := linkScan_found pu rx t anc i tags (linkStep pu rx t anc i st a) hstep.2
        have hfind : (a :: tags).find? (qual pu rx t) = some a := by
          simp [List.find?, hq]
        rw [hfind]
        exact ⟨hfound.1.trans hstep.1, by simp [hfound.2]⟩
      · have hq2 : qual pu rx t a = false := by
          simpa using hq
        have hstep := linkStep_miss pu rx t anc i st a hq2
        have hfind : (a :: tags).find? (qual pu rx t) = tags.find? (qual pu rx t) := by
          simp [List.find?, hq2]
        have ih2 := ih (linkStep pu rx t anc i st a) (hstep.2.trans h)
        rw [hfind]
        refine ⟨?_, ih2.2⟩
        rw [ih2.1, hstep.1]

/-- Record returned when requests.get raises: the status cell carries the
request-error text, the STATUS CODE cell the string error, and nothing
else is written. -/
theorem analyze_error_record (fetch : String → FetchResult) (row : Row) (root m : String) (i : Nat)
    (hi : i = 1 ∨ i = 2 ∨ i = 3)
    (ht : ¬ pyStrip (row.target i) = "")
    (hf : fetch (pyStrip row.pageUrl) = FetchResult.error m) :
    analyze_url fetch row i root =
      [ (statusKey i, Value.str ( "Request error: " ++ m)), (relKey i, Value.str ""),
        ( "STATUS CODE", Value.str "error")] := by
  rcases hi with rfl | rfl | rfl <;>
  · simp only [analyze_url]
    rw [if_neg ht, hf]
    rfl

/-- Record returned on a non-200 response: only the status code is added
and the two slot cells stay empty. -/
theorem analyze_non200_record (fetch : String → FetchResult) (row : Row) (root : String)
    (code : Nat) (page : Option Doc) (i : Nat)
    (hi : i = 1 ∨ i = 2 ∨ i = 3)
    (ht : ¬ pyStrip (row.target i) = "")
    (hf : fetch (pyStrip row.pageUrl) = FetchResult.success code page)
    (hc : code ≠ 200) :
    analyze_url fetch row i root =
      [ (statusKey i, Value.str ""), (relKey i, Value.str ""),
        ( "STATUS CODE", Value.int code)] := by
  rcases hi with rfl | rfl | rfl <;>
  · simp only [analyze_url]
    rw [if_neg ht, hf]
    show (if code ≠ 200 then _ else _) = _
    rw [if_pos hc]
    rfl

/-- Record returned when both parsers fail on a 200 response: the status
cell carries the parse-error text next to the status code. -/
theorem analyze_parsefail_record (fetch : String → FetchResult) (row : Row) (root : String)
    (i : Nat)
    (hi : i = 1 ∨ i = 2 ∨ i = 3)
    (ht : ¬ pyStrip (row.target i) = "")
    (hf : fetch (pyStrip row.pageUrl) = FetchResult.success 200 none) :
    analyze_url fetch row i root =
      [ (statusKey i, Value.str "HTML parsing error"), (relKey i, Value.str ""),
        ( "STATUS CODE", Value.int 200)] := by
  rcases hi with rfl | rfl | rfl <;>
  · simp only [analyze_url]
    rw [if_neg ht, hf]
    rfl

/-- On a parsed 200 response the record is the link check applied to the
six extraction cells. -/
theorem analyze_success_record (fetch : String → FetchResult) (row : Row) (root : String)
    (soup : Doc) (i : Nat)
    (hi : i = 1 ∨ i = 2 ∨ i = 3)
    (ht : ¬ pyStrip (row.target i) = "")
    (hf : fetch (pyStrip row.pageUrl) = FetchResult.success 200 (some soup)) :
    analyze_url fetch row i root =
      link_check (pyStrip row.pageUrl) root (pyStrip (row.target i)) (pyStrip (row.anchor i)) i soup
        [ (statusKey i, Value.str ""), (relKey i, Value.str ""),
          ( "STATUS CODE", Value.int 200),
          ( "PAGE TITLE", Value.str (titleVal soup.title)),
          ( "CANONICAL", Value.str (canonVal soup.canonical (pyStrip row.pageUrl))),
          ( "ROBOTS", Value.str (robotsVal soup.robots))] := by
  rcases hi with rfl | rfl | rfl <;>
  · simp only [analyze_url]
    rw [if_neg ht, hf]
    rfl

/-- Loop outcome when a qualifying tag exists: the two cells carry the
values of the first one. -/
theorem linkScan_res_some (pu rx t anc : String) (i : Nat) (tags : List ATag) (st : ScanState)
    (a : ATag) (h : st.found = false) (hfind : tags.find? (qual pu rx t) = some a) :
    (linkScan pu rx t anc i st tags).res =
      rset (rset st.res (relKey i) (Value.str (relStr a.rel)))
           (statusKey i) (Value.str (statusText anc a)) ∧
    (linkScan pu rx t anc i st tags).found = true := by
  have h2 := linkScan_res pu rx t anc i tags st h
  rw [hfind] at h2
  exact ⟨h2.1, by simp [h2.2]⟩

/-- Loop outcome when no tag qualifies: the dictionary is untouched. -/
theorem linkScan_res_none (pu rx t anc : String) (i : Nat) (tags : List ATag) (st : ScanState)
    (h : st.found = false) (hfind : tags.find? (qual pu rx t) = none) :
    (linkScan pu rx t anc i st tags).res = st.res ∧
    (linkScan pu rx t anc i st tags).found = false := by
  have h2 := linkScan_res pu rx t anc i tags st h
  rw [hfind] at h2
  exact ⟨h2.1, by simp [h2.2]⟩

/-- Status cell of the link check: the first qualifying link determines
it, and without one it reads link not found. -/
theorem link_check_status (pu root targ anc : String) (i : Nat) (soup : Doc) (result : Record)
    (h1 : statusKey i ≠ "Links to root domain")
    (h2 : statusKey i ≠ "Anchors to root domain")
    (h3 : statusKey i ≠ "Rel attributes to root domain") :
    rget (link_check pu root targ anc i soup result) (statusKey i) =
      some (Value.str
        (match soup.anchors.find? (qual pu (registeredDomain root) targ) with
         | some a => statusText anc a
         | none => "link not found")) := by
  simp only [link_check]
  rw [rget_rset_ne _ _ _ _ h3, rget_rset_ne _ _ _ _ h2, rget_rset_ne _ _ _ _ h1]
  cases hfind : soup.anchors.find? (qual pu (registeredDomain root) targ) with
  | some a =>
      have hres := linkScan_res_some pu (registeredDomain root) targ anc i soup.anchors
        ⟨result, [], [], [], false⟩ a rfl hfind
      rw [hres.2, if_pos rfl, hres.1, rget_rset_self]
  | none =>
      have hres := linkScan_res_none pu (registeredDomain root) targ anc i soup.anchors
        ⟨result, [], [], [], false⟩ rfl hfind
      rw [hres.2]
      simp only [Bool.false_eq_true, if_false]
      rw [rget_rset_self]

/-- Any cell other than the two slot cells and the three appended list
cells keeps its value through the link check. -/
theorem link_check_other (pu root targ anc : String) (i : Nat) (soup : Doc) (result : Record)
    (k : String)
    (hk1 : k ≠ statusKey i) (hk2 : k ≠ relKey i)
    (hkL : k ≠ "Links to root domain")
    (hkA : k ≠ "Anchors to root domain")
    (hkR : k ≠ "Rel attributes to root domain") :
    rget (link_check pu root targ anc i soup result) k = rget result k := by
  simp only [link_check]
  rw [rget_rset_ne _ _ _ _ hkR, rget_rset_ne _ _ _ _ hkA, rget_rset_ne _ _ _ _ hkL]
  cases hfind : soup.anchors.find? (qual pu (registeredDomain root) targ) with
  | some a =>
      have hres := linkScan_res_some pu (registeredDomain root) targ anc i soup.anchors
        ⟨result, [], [], [], false⟩ a rfl hfind
      rw [hres.2, if_pos rfl, hres.1, rget_rset_ne _ _ _ _ hk1, rget_rset_ne _ _ _ _ hk2]
  | none =>
      have hres := linkScan_res_none pu (registeredDomain root) targ anc i soup.anchors
        ⟨result, [], [], [], false⟩ rfl hfind
      rw [hres.2]
      simp only [Bool.false_eq_true, if_false]
      rw [rget_rset_ne _ _ _ _ hk1, hres.1]

/-- The three appended list cells of the link check hold the joins of the
capped matching-tag lists, in document order. -/
theorem link_check_lists (pu root targ anc : String) (i : Nat) (soup : Doc) (result : Record) :
    rget (link_check pu root targ anc i soup result) "Links to root domain" =
      some (Value.str (pyJoin ", "
        (((matchingTags pu (registeredDomain root) soup.anchors).map
            (fun a => urljoin pu a.href)).take 30))) ∧
    rget (link_check pu root targ anc i soup result) "Anchors to root domain" =
      some (Value.str (pyJoin ", "
        (((matchingTags pu (registeredDomain root) soup.anchors).map
            (fun a => pyStrip a.text)).take 30))) ∧
    rget (link_check pu root targ anc i soup result) "Rel attributes to root domain" =
      some (Value.str (pyJoin ", "
        (((matchingTags pu (registeredDomain root) soup.anchors).map
            (fun a => relStr a.rel)).take 30))) := by
  simp only [link_check]
  have hl := linkScan_lists pu (registeredDomain root) targ anc i soup.anchors
    ⟨result, [], [], [], false⟩
  rw [hl.1, hl.2.1, hl.2.2]
  simp only [List.nil_append]
  refine ⟨?_, ?_, ?_⟩
  · rw [rget_rset_ne _ _ _ _ (by decide), rget_rset_ne _ _ _ _ (by decide), rget_rset_self]
  · rw [rget_rset_ne _ _ _ _ (by decide), rget_rset_self]
  · rw [rget_rset_self]

/-- Key list of the link check result: the keys of the incoming record
followed by the three appended list keys. -/
theorem link_check_keys (pu root targ anc : String) (i : Nat) (soup : Doc) (result : Record)
    (hs : statusKey i ∈ rkeys result) (hr : relKey i ∈ rkeys result)
    (hL : "Links to root domain" ∉ rkeys result)
    (hA : "Anchors to root domain" ∉ rkeys result)
    (hR : "Rel attributes to root domain" ∉ rkeys result) :
    rkeys (link_check pu root targ anc i soup result) =
      rkeys result ++
        [ "Links to root domain", "Anchors to root domain", "Rel attributes to root domain"] := by
  simp only [link_check]
  have hX : rkeys (if (linkScan pu (registeredDomain root) targ anc i
      ⟨result, [], [], [], false⟩ soup.anchors).found then
      (linkScan pu (registeredDomain root) targ anc i
        ⟨result, [], [], [], false⟩ soup.anchors).res
    else rset (linkScan pu (registeredDomain root) targ anc i
        ⟨result, [], [], [], false⟩ soup.anchors).res (statusKey i) (Value.str "link not found")) =
      rkeys result := by
    cases hfind : soup.anchors.find? (qual pu (registeredDomain root) targ) with
    | some a =>
        have hres := linkScan_res_some pu (registeredDomain root) targ anc i soup.anchors
          ⟨result, [], [], [], false⟩ a rfl hfind
        rw [hres.2, if_pos rfl, hres.1]
        have e1 : rkeys (rset result (relKey i) (Value.str (relStr a.rel))) = rkeys result :=
          rkeys_rset_mem result (relKey i) _ hr
        have e2 : statusKey i ∈ rkeys (rset result (relKey i) (Value.str (relStr a.rel))) := by
          rw [e1]; exact hs
        rw [rkeys_rset_mem _ _ _ e2, e1]
    | none =>
        have hres := linkScan_res_none pu (registeredDomain root) targ anc i soup.anchors
          ⟨result, [], [], [], false⟩ rfl hfind
        rw [hres.2]
        simp only [Bool.false_eq_true, if_false]
        rw [hres.1, rkeys_rset_mem result _ _ hs]
  rw [rkeys_rset_not_mem, rkeys_rset_not_mem, rkeys_rset_not_mem, hX]
  · simp
  · rw [hX]; exact hL
  · rw [rkeys_rset_not_mem _ _ _ (by rw [hX]; exact hL), hX]
    simp [hA]
  · rw [rkeys_rset_not_mem, rkeys_rset_not_mem _ _ _ (by rw [hX]; exact hL), hX]
    · simp [hR]
    · rw [rkeys_rset_not_mem _ _ _ (by rw [hX]; exact hL), hX]
      simp [hA]

/-- Status cell of a successfully analyzed page, characterized by the
first qualifying link of the document. -/
theorem success_status_cell (fetch : String → FetchResult) (row : Row) (root : String)
    (soup : Doc) (i : Nat)
    (hi : i = 1 ∨ i = 2 ∨ i = 3)
    (ht : ¬ pyStrip (row.target i) = "")
    (hf : fetch (pyStrip row.pageUrl) = FetchResult.success 200 (some soup)) :
    rget (analyze_url fetch row i root) (statusKey i) =
      some (Value.str
        (match soup.anchors.find? (qual (pyStrip row.pageUrl) (registeredDomain root)
            (pyStrip (row.target i))) with
         | some a => statusText (pyStrip (row.anchor i)) a
         | none => "link not found")) := by
  rw [analyze_success_record fetch row root soup i hi ht hf]
  rcases hi with rfl | rfl | rfl <;>
    exact link_check_status _ _ _ _ _ _ _ (by decide) (by decide) (by decide)

/-- Extraction cells of a successfully analyzed page. -/
theorem success_fixed_cells (fetch : String → FetchResult) (row : Row) (root : String)
    (soup : Doc) (i : Nat)
    (hi : i = 1 ∨ i = 2 ∨ i = 3)
    (ht : ¬ pyStrip (row.target i) = "")
    (hf : fetch (pyStrip row.pageUrl) = FetchResult.success 200 (some soup)) :
    rget (analyze_url fetch row i root) "PAGE TITLE" = some (Value.str (titleVal soup.title)) ∧
    rget (analyze_url fetch row i root) "CANONICAL" =
      some (Value.str (canonVal soup.canonical (pyStrip row.pageUrl))) ∧
    rget (analyze_url fetch row i root) "ROBOTS" = some (Value.str (robotsVal soup.robots)) ∧
    rget (analyze_url fetch row i root) "STATUS CODE" = some (Value.int 200) := by
  rw [analyze_success_record fetch row root soup i hi ht hf]
  rcases hi with rfl | rfl | rfl <;>
  · refine ⟨?_, ?_, ?_, ?_⟩ <;>
    · rw [link_check_other _ _ _ _ _ _ _ _ (by decide) (by decide) (by decide) (by decide)
        (by decide)]
      rfl

/-- Key list of a successfully analyzed page: the nine known columns and
nothing else. -/
theorem success_keys (fetch : String → FetchResult) (row : Row) (root : String)
    (soup : Doc) (i : Nat)
    (hi : i = 1 ∨ i = 2 ∨ i = 3)
    (ht : ¬ pyStrip (row.target i) = "")
    (hf : fetch (pyStrip row.pageUrl) = FetchResult.success 200 (some soup)) :
    rkeys (analyze_url fetch row i root) =
      [statusKey i, relKey i, "STATUS CODE", "PAGE TITLE", "CANONICAL", "ROBOTS",
       "Links to root domain", "Anchors to root domain", "Rel attributes to root domain"] := by
  rw [analyze_success_record fetch row root soup i hi ht hf]
  rcases hi with rfl | rfl | rfl <;>
  · rw [link_check_keys _ _ _ _ _ _ _
      (by simp only [rkeys, List.map_cons, List.map_nil]; decide)
      (by simp only [rkeys, List.map_cons, List.map_nil]; decide)
      (by simp only [rkeys, List.map_cons, List.map_nil]; decide)
      (by simp only [rkeys, List.map_cons, List.map_nil]; decide)
      (by simp only [rkeys, List.map_cons, List.map_nil]; decide)]
    rfl

/-- List cells of a successfully analyzed page: joins of the capped
matching-link lists. -/
theorem success_list_cells (fetch : String → FetchResult) (row : Row) (root : String)
    (soup : Doc) (i : Nat)
    (hi : i = 1 ∨ i = 2 ∨ i = 3)
    (ht : ¬ pyStrip (row.target i) = "")
    (hf : fetch (pyStrip row.pageUrl) = FetchResult.success 200 (some soup)) :
    rget (analyze_url fetch row i root) "Links to root domain" =
      some (Value.str (pyJoin ", "
        (((matchingTags (pyStrip row.pageUrl) (registeredDomain root) soup.anchors).map
            (fun a => urljoin (pyStrip row.pageUrl) a.href)).take 30))) ∧
    rget (analyze_url fetch row i root) "Anchors to root domain" =
      some (Value.str (pyJoin ", "
        (((matchingTags (pyStrip row.pageUrl) (registeredDomain root) soup.anchors).map
            (fun a => pyStrip a.text)).take 30))) ∧
    rget (analyze_url fetch row i root) "Rel attributes to root domain" =
      some (Value.str (pyJoin ", "
        (((matchingTags (pyStrip row.pageUrl) (registeredDomain root) soup.anchors).map
            (fun a => relStr a.rel)).take 30))) := by
  rw [analyze_success_record fetch row root soup i hi ht hf]
  exact link_check_lists _ _ _ _ _ _ _

/-- Lookup at the head key of a record. -/
theorem rget_cons_self (k : String) (v : Value) (r : Record) : rget ((k, v) :: r) k = some v := by
  simp [rget]

/-- Lookup past a head entry with a different key. -/
theorem rget_cons_ne (k k2 : String) (v : Value) (r : Record) (h : k2 ≠ k) :
    rget ((k, v) :: r) k2 = rget r k2 := by
  have h2 : ¬ k = k2 := fun e => h e.symm
  simp [rget, h2]

/-- The empty string differs from any append with a nonempty left part. -/
theorem str_empty_ne_app (t u : String) (d : Char) (h : t.data.head? = some d) :
    "" ≠ t ++ u := by
  intro e
  have h2 := headOfApp t u d h
  rw [← e] at h2
  simp at h2

/-- The status texts written on a found link are never one of the two
error texts. -/
theorem statusText_ne_err (anc m : String) (a : ATag) :
    statusText anc a ≠ "HTML parsing error" ∧ statusText anc a ≠ "Request error: " ++ m := by
  unfold statusText
  by_cases h1 : anc ≠ ""
  · rw [if_pos h1]
    by_cases h2 : pyStrip a.text = anc
    · rw [if_pos h2]
      exact ⟨by decide, str_ne_of_head rfl (headOfApp _ _ 'R' rfl) (by decide)⟩
    · rw [if_neg h2]
      refine ⟨?_, ?_⟩
      · exact str_ne_of_head (headOfApp _ _ 'a' (headOfApp _ _ 'a' rfl)) rfl (by decide)
      · exact str_ne_of_head (headOfApp _ _ 'a' (headOfApp _ _ 'a' rfl))
          (headOfApp _ _ 'R' rfl) (by decide)
  · rw [if_neg h1]
    exact ⟨by decide, str_ne_of_head rfl (headOfApp _ _ 'R' rfl) (by decide)⟩

/-- The text link not found is never one of the two error texts. -/
theorem lnf_ne_err (m : String) :
    ( "link not found" : String) ≠ "HTML parsing error" ∧
    ( "link not found" : String) ≠ "Request error: " ++ m :=
  ⟨by decide, str_ne_of_head rfl (headOfApp _ _ 'R' rfl) (by decide)⟩

/-- C9: when the expected target cell of the slot is empty after trimming,
analyze_url performs no fetch and returns exactly the two slot cells, both
empty, with no status code and no extraction cells; the result does not
depend on the fetch oracle at all. -/
theorem c9_empty_target_skips (fetch g : String → FetchResult) (row : Row) (i : Nat)
    (root : String) (h : pyStrip (row.target i) = "") :
    analyze_url fetch row i root = [ (statusKey i, Value.str ""), (relKey i, Value.str "")] ∧
    analyze_events row i = [] ∧
    analyze_url fetch row i root = analyze_url g row i root := by
  refine ⟨?_, ?_, ?_⟩
  · simp only [analyze_url]
    rw [if_pos h]
  · simp only [analyze_events]
    rw [if_pos h]
  · simp only [analyze_url]
    rw [if_pos h, if_pos h]

/-- Witness for c9_empty_target_skips: a whitespace target cell at slot 1
produces the bare two-cell record, no fetch event, and the same record
under a different oracle. -/
theorem c9_empty_target_skips_witness :
    pyStrip ((⟨fun _ => "  ", fun _ => "", "u"⟩ : Row).target 1) = "" ∧
    (analyze_url (fun _ => FetchResult.error "boom") ⟨fun _ => "  ", fun _ => "", "u"⟩ 1 "" =
      [ (statusKey 1, Value.str ""), (relKey 1, Value.str "")] ∧
    analyze_events (⟨fun _ => "  ", fun _ => "", "u"⟩ : Row) 1 = [] ∧
    analyze_url (fun _ => FetchResult.error "boom") ⟨fun _ => "  ", fun _ => "", "u"⟩ 1 "" =
      analyze_url (fun _ => FetchResult.success 200 none) ⟨fun _ => "  ", fun _ => "", "u"⟩ 1 "") :=
  ⟨by decide,
   c9_empty_target_skips (fun _ => FetchResult.error "boom")
     (fun _ => FetchResult.success 200 none) ⟨fun _ => "  ", fun _ => "", "u"⟩ 1 "" (by decide)⟩

/-- C2 counterexample: a page at https://a.com/p whose canonical href is
https://a.com/p/ is NOT reported as self-canonical; the CANONICAL cell
carries the raw href, so the trailing slash is significant. -/
theorem c2_counter_trailing_slash :
    rget (analyze_url
        (fun _ => FetchResult.success 200 (some ⟨none, some "https://a.com/p/", none, []⟩))
        ⟨fun _ => "x", fun _ => "", "https://a.com/p"⟩ 1 "")
      "CANONICAL" = some (Value.str "https://a.com/p/") ∧
    ( "https://a.com/p/" : String) ≠ "self canonical" := by
  constructor
  · decide
  · decide

/-- C2 (amended): the canonical cell reads self canonical exactly when the
whitespace-trimmed canonical href equals the trimmed page URL verbatim;
otherwise it carries the trimmed href.  Trailing slashes are not
stripped. -/
theorem c2_canonical_exact (fetch : String → FetchResult) (row : Row) (root : String)
    (soup : Doc) (i : Nat) (href : String)
    (hi : i = 1 ∨ i = 2 ∨ i = 3)
    (ht : ¬ pyStrip (row.target i) = "")
    (hf : fetch (pyStrip row.pageUrl) = FetchResult.success 200 (some soup))
    (hcan : soup.canonical = some href) (hne : href ≠ "") :
    rget (analyze_url fetch row i root) "CANONICAL" =
      some (Value.str
        (if pyStrip href = pyStrip row.pageUrl then "self canonical" else pyStrip href)) := by
  have h2 := (success_fixed_cells fetch row root soup i hi ht hf).2.1
  rw [h2]
  simp [canonVal, hcan, hne]

/-- Witness for c2_canonical_exact: an exactly equal canonical href is
reported as self canonical. -/
theorem c2_canonical_exact_witness :
    rget (analyze_url
        (fun _ => FetchResult.success 200 (some ⟨none, some "https://a.com/p", none, []⟩))
        ⟨fun _ => "x", fun _ => "", "https://a.com/p"⟩ 1 "")
      "CANONICAL" = some (Value.str "self canonical") := by
  have h := c2_canonical_exact
    (fun _ => FetchResult.success 200 (some ⟨none, some "https://a.com/p", none, []⟩))
    ⟨fun _ => "x", fun _ => "", "https://a.com/p"⟩ "" ⟨none, some "https://a.com/p", none, []⟩
    1 "https://a.com/p" (by decide) (by decide) rfl rfl (by decide)
  simpa using h

/-- C7 counterexample: a robots meta content of NOINDEX, follow does not
yield any indexable flag; the record stores the content verbatim in the
ROBOTS cell and its keys are exactly the nine known columns, none of which
is an indexable flag. -/
theorem c7_counter_no_indexable_flag :
    rget (analyze_url
        (fun _ => FetchResult.success 200 (some ⟨none, none, some (some "NOINDEX, follow"), []⟩))
        ⟨fun _ => "x", fun _ => "", "u"⟩ 1 "")
      "ROBOTS" = some (Value.str "NOINDEX, follow") ∧
    rkeys (analyze_url
        (fun _ => FetchResult.success 200 (some ⟨none, none, some (some "NOINDEX, follow"), []⟩))
        ⟨fun _ => "x", fun _ => "", "u"⟩ 1 "") =
      [ "Link and anchor status 1", "REL 1", "STATUS CODE", "PAGE TITLE", "CANONICAL",
        "ROBOTS", "Links to root domain", "Anchors to root domain",
        "Rel attributes to root domain"] := by
  constructor
  · decide
  · decide

/-- C7 (amended): on a successfully extracted page the ROBOTS cell stores
the robots meta content verbatim, the string not found when the tag is
absent and the string error when it lacks a content attribute; the record
has exactly the nine known columns and no boolean indexable flag is
computed. -/
theorem c7_robots_verbatim (fetch : String → FetchResult) (row : Row) (root : String)
    (soup : Doc) (i : Nat)
    (hi : i = 1 ∨ i = 2 ∨ i = 3)
    (ht : ¬ pyStrip (row.target i) = "")
    (hf : fetch (pyStrip row.pageUrl) = FetchResult.success 200 (some soup)) :
    rget (analyze_url fetch row i root) "ROBOTS" = some (Value.str (robotsVal soup.robots)) ∧
    rkeys (analyze_url fetch row i root) =
      [statusKey i, relKey i, "STATUS CODE", "PAGE TITLE", "CANONICAL", "ROBOTS",
       "Links to root domain", "Anchors to root domain", "Rel attributes to root domain"] :=
  ⟨(success_fixed_cells fetch row root soup i hi ht hf).2.2.1,
   success_keys fetch row root soup i hi ht hf⟩

/-- Witness for c7_robots_verbatim at a concrete page carrying a robots
tag with content NOINDEX, follow. -/
theorem c7_robots_verbatim_witness :
    rget (analyze_url
        (fun _ => FetchResult.success 200 (some ⟨none, none, some (some "NOINDEX, follow"), []⟩))
        ⟨fun _ => "t", fun _ => "", "w"⟩ 1 "")
      "ROBOTS" = some (Value.str "NOINDEX, follow") := by
  have h := c7_robots_verbatim
    (fun _ => FetchResult.success 200 (some ⟨none, none, some (some "NOINDEX, follow"), []⟩))
    ⟨fun _ => "t", fun _ => "", "w"⟩ "" ⟨none, none, some (some "NOINDEX, follow"), []⟩ 1
    (by decide) (by decide) rfl
  simpa using h.1

/-- C4: when both an expected target path and an expected anchor are
supplied and some domain-matching link contains the target as a substring,
the first such link alone fixes the status cell: exact trimmed
case-sensitive anchor equality gives true, anything else gives the anchor
mismatch text carrying the actual anchor found. -/
theorem c4_first_qualifying_link (fetch : String → FetchResult) (row : Row) (root : String)
    (soup : Doc) (i : Nat) (a : ATag)
    (hi : i = 1 ∨ i = 2 ∨ i = 3)
    (ht : ¬ pyStrip (row.target i) = "")
    (ha : ¬ pyStrip (row.anchor i) = "")
    (hf : fetch (pyStrip row.pageUrl) = FetchResult.success 200 (some soup))
    (hfind : soup.anchors.find? (qual (pyStrip row.pageUrl) (registeredDomain root)
        (pyStrip (row.target i))) = some a) :
    rget (analyze_url fetch row i root) (statusKey i) =
      some (Value.str
        (if pyStrip a.text = pyStrip (row.anchor i) then "true"
         else "anchor mismatch (found: " ++ pyStrip a.text ++ ")")) := by
  rw [success_status_cell fetch row root soup i hi ht hf, hfind]
  simp [statusText, ha]

/-- Witness for c4_first_qualifying_link: the second document anchor is
the first qualifying one and its text Click here mismatches the expected
Read more, so the mismatch text carries the actual anchor. -/
theorem c4_first_qualifying_link_witness :
    (⟨none, none, none,
      [⟨ "https://other.org/a", "x", []⟩,
       ⟨ "https://t.com/landing", " Click here ", [ "nofollow"]⟩,
       ⟨ "https://t.com/landing", "Read more", []⟩]⟩ : Doc).anchors.find?
        (qual (pyStrip ( "https://page.com/p"))
          (registeredDomain "t.com") (pyStrip ( "/landing"))) =
      some ⟨ "https://t.com/landing", " Click here ", [ "nofollow"]⟩ ∧
    rget (analyze_url
        (fun _ => FetchResult.success 200 (some ⟨none, none, none,
          [⟨ "https://other.org/a", "x", []⟩,
           ⟨ "https://t.com/landing", " Click here ", [ "nofollow"]⟩,
           ⟨ "https://t.com/landing", "Read more", []⟩]⟩))
        ⟨fun _ => "/landing", fun _ => "Read more", "https://page.com/p"⟩ 1 "t.com")
      (statusKey 1) = some (Value.str "anchor mismatch (found: Click here)") := by
  refine ⟨by decide, ?_⟩
  rw [c4_first_qualifying_link
    (fun _ => FetchResult.success 200 (some ⟨none, none, none,
      [⟨ "https://other.org/a", "x", []⟩,
       ⟨ "https://t.com/landing", " Click here ", [ "nofollow"]⟩,
       ⟨ "https://t.com/landing", "Read more", []⟩]⟩))
    ⟨fun _ => "/landing", fun _ => "Read more", "https://page.com/p"⟩ "t.com"
    ⟨none, none, none,
      [⟨ "https://other.org/a", "x", []⟩,
       ⟨ "https://t.com/landing", " Click here ", [ "nofollow"]⟩,
       ⟨ "https://t.com/landing", "Read more", []⟩]⟩ 1
    ⟨ "https://t.com/landing", " Click here ", [ "nofollow"]⟩
    (by decide) (by decide) (by decide) rfl (by decide)]
  decide

/-- C5: a link is collected as pointing to the root site exactly when the
registrable domain of its absolute href equals the registrable domain of
the root input, computed through the public-suffix rules; subdomains,
scheme and path are ignored, and distinct registrable domains never
match. -/
theorem c5_same_site_iff :
    (∀ (pu root t anc : String) (i : Nat) (res : Record) (tags : List ATag),
      (linkScan pu (registeredDomain root) t anc i ⟨res, [], [], [], false⟩ tags).links =
        (tags.filter (fun a =>
            decide (registeredDomain (urljoin pu a.href) = registeredDomain root))).map
          (fun a => urljoin pu a.href)) ∧
    registeredDomain "http://blog.sub.example.co.uk/x" = "example.co.uk" ∧
    registeredDomain "example.co.uk" = "example.co.uk" ∧
    registeredDomain "example.com" ≠ registeredDomain "example.net" := by
  refine ⟨?_, by decide, by decide, by decide⟩
  intro pu root t anc i res tags
  have h := (linkScan_lists pu (registeredDomain root) t anc i tags ⟨res, [], [], [], false⟩).1
  simpa [matchingTags] using h

/-- C6: the reported links cell is the comma join of the absolute hrefs of
exactly the domain-matching anchors, in document order, truncated to the
first 30; the truncated list never exceeds 30 entries and is the whole
matching list whenever at most 30 anchors match. -/
theorem c6_capped_links (fetch : String → FetchResult) (row : Row) (root : String)
    (soup : Doc) (i : Nat)
    (hi : i = 1 ∨ i = 2 ∨ i = 3)
    (ht : ¬ pyStrip (row.target i) = "")
    (hf : fetch (pyStrip row.pageUrl) = FetchResult.success 200 (some soup)) :
    rget (analyze_url fetch row i root) "Links to root domain" =
      some (Value.str (pyJoin ", "
        (((matchingTags (pyStrip row.pageUrl) (registeredDomain root) soup.anchors).map
            (fun a => urljoin (pyStrip row.pageUrl) a.href)).take 30))) ∧
    (((matchingTags (pyStrip row.pageUrl) (registeredDomain root) soup.anchors).map
        (fun a => urljoin (pyStrip row.pageUrl) a.href)).take 30).length ≤ 30 ∧
    ((matchingTags (pyStrip row.pageUrl) (registeredDomain root) soup.anchors).length ≤ 30 →
      ((matchingTags (pyStrip row.pageUrl) (registeredDomain root) soup.anchors).map
          (fun a => urljoin (pyStrip row.pageUrl) a.href)).take 30 =
        (matchingTags (pyStrip row.pageUrl) (registeredDomain root) soup.anchors).map
          (fun a => urljoin (pyStrip row.pageUrl) a.href)) := by
  refine ⟨(success_list_cells fetch row root soup i hi ht hf).1, ?_, ?_⟩
  · rw [List.length_take]
    exact min_le_left _ _
  · intro hle
    apply List.take_of_length_le
    rw [List.length_map]
    exact hle

/-- Witness for c6_capped_links: two of three document anchors match the
root domain and the cell joins exactly their absolute hrefs in document
order. -/
theorem c6_capped_links_witness :
    rget (analyze_url
        (fun _ => FetchResult.success 200 (some ⟨none, none, none,
          [⟨ "https://t.com/a", "A", []⟩,
           ⟨ "https://other.org/x", "X", []⟩,
           ⟨ "https://t.com/b", "B", []⟩]⟩))
        ⟨fun _ => "x", fun _ => "", "https://page.com/p"⟩ 1 "t.com")
      "Links to root domain" =
      some (Value.str "https://t.com/a, https://t.com/b") := by
  rw [(c6_capped_links
    (fun _ => FetchResult.success 200 (some ⟨none, none, none,
      [⟨ "https://t.com/a", "A", []⟩,
       ⟨ "https://other.org/x", "X", []⟩,
       ⟨ "https://t.com/b", "B", []⟩]⟩))
    ⟨fun _ => "x", fun _ => "", "https://page.com/p"⟩ "t.com"
    ⟨none, none, none,
      [⟨ "https://t.com/a", "A", []⟩,
       ⟨ "https://other.org/x", "X", []⟩,
       ⟨ "https://t.com/b", "B", []⟩]⟩ 1
    (by decide) (by decide) rfl).1]
  decide

/-- C10: the three reported collections are built from the same
domain-matching tag list, so the truncated lists always have equal length
and the entries at each position come from the same anchor tag, in
document order. -/
theorem c10_parallel_collections (fetch : String → FetchResult) (row : Row) (root : String)
    (soup : Doc) (i : Nat)
    (hi : i = 1 ∨ i = 2 ∨ i = 3)
    (ht : ¬ pyStrip (row.target i) = "")
    (hf : fetch (pyStrip row.pageUrl) = FetchResult.success 200 (some soup)) :
    (rget (analyze_url fetch row i root) "Anchors to root domain" =
      some (Value.str (pyJoin ", "
        (((matchingTags (pyStrip row.pageUrl) (registeredDomain root) soup.anchors).map
            (fun a => pyStrip a.text)).take 30))) ∧
     rget (analyze_url fetch row i root) "Rel attributes to root domain" =
      some (Value.str (pyJoin ", "
        (((matchingTags (pyStrip row.pageUrl) (registeredDomain root) soup.anchors).map
            (fun a => relStr a.rel)).take 30)))) ∧
    ((((matchingTags (pyStrip row.pageUrl) (registeredDomain root) soup.anchors).map
        (fun a => urljoin (pyStrip row.pageUrl) a.href)).take 30).length =
      (((matchingTags (pyStrip row.pageUrl) (registeredDomain root) soup.anchors).map
        (fun a => pyStrip a.text)).take 30).length ∧
     (((matchingTags (pyStrip row.pageUrl) (registeredDomain root) soup.anchors).map
        (fun a => pyStrip a.text)).take 30).length =
      (((matchingTags (pyStrip row.pageUrl) (registeredDomain root) soup.anchors).map
        (fun a => relStr a.rel)).take 30).length) ∧
    (∀ k, k < (((matchingTags (pyStrip row.pageUrl) (registeredDomain root) soup.anchors).map
        (fun a => urljoin (pyStrip row.pageUrl) a.href)).take 30).length →
      ∃ a, (matchingTags (pyStrip row.pageUrl) (registeredDomain root) soup.anchors)[k]? =
          some a ∧
        (((matchingTags (pyStrip row.pageUrl) (registeredDomain root) soup.anchors).map
            (fun a => urljoin (pyStrip row.pageUrl) a.href)).take 30)[k]? =
          some (urljoin (pyStrip row.pageUrl) a.href) ∧
        (((matchingTags (pyStrip row.pageUrl) (registeredDomain root) soup.anchors).map
            (fun a => pyStrip a.text)).take 30)[k]? = some (pyStrip a.text) ∧
        (((matchingTags (pyStrip row.pageUrl) (registeredDomain root) soup.anchors).map
            (fun a => relStr a.rel)).take 30)[k]? = some (relStr a.rel)) := by
  refine ⟨⟨(success_list_cells fetch row root soup i hi ht hf).2.1,
          (success_list_cells fetch row root soup i hi ht hf).2.2⟩, ?_, ?_⟩
  · constructor <;> simp [List.length_take]
  · intro k hk
    rw [List.length_take, List.length_map] at hk
    have hk30 : k < 30 := (Nat.lt_min.mp hk).1
    have hkM : k < (matchingTags (pyStrip row.pageUrl) (registeredDomain root)
        soup.anchors).length := (Nat.lt_min.mp hk).2
    refine ⟨(matchingTags (pyStrip row.pageUrl) (registeredDomain root) soup.anchors).get
      ⟨k, hkM⟩, ?_, ?_, ?_, ?_⟩
    · rw [List.getElem?_eq_getElem hkM]
      rfl
    · rw [List.getElem?_take_of_lt hk30, List.getElem?_map, List.getElem?_eq_getElem hkM]
      rfl
    · rw [List.getElem?_take_of_lt hk30, List.getElem?_map, List.getElem?_eq_getElem hkM]
      rfl
    · rw [List.getElem?_take_of_lt hk30, List.getElem?_map, List.getElem?_eq_getElem hkM]
      rfl

/-- Witness for c10_parallel_collections: a page with one matching and one
non-matching anchor has parallel one-entry collections drawn from the
matching tag. -/
theorem c10_parallel_collections_witness :
    rget (analyze_url
        (fun _ => FetchResult.success 200 (some ⟨none, none, none,
          [⟨ "https://t.com/a", " A ", [ "nofollow", "ugc"]⟩,
           ⟨ "https://other.org/x", "X", []⟩]⟩))
        ⟨fun _ => "z", fun _ => "", "https://page.com/p"⟩ 1 "t.com")
      "Anchors to root domain" = some (Value.str "A") ∧
    rget (analyze_url
        (fun _ => FetchResult.success 200 (some ⟨none, none, none,
          [⟨ "https://t.com/a", " A ", [ "nofollow", "ugc"]⟩,
           ⟨ "https://other.org/x", "X", []⟩]⟩))
        ⟨fun _ => "z", fun _ => "", "https://page.com/p"⟩ 1 "t.com")
      "Rel attributes to root domain" = some (Value.str "nofollow ugc") := by
  have h := c10_parallel_collections
    (fun _ => FetchResult.success 200 (some ⟨none, none, none,
      [⟨ "https://t.com/a", " A ", [ "nofollow", "ugc"]⟩,
       ⟨ "https://other.org/x", "X", []⟩]⟩))
    ⟨fun _ => "z", fun _ => "", "https://page.com/p"⟩ "t.com"
    ⟨none, none, none,
      [⟨ "https://t.com/a", " A ", [ "nofollow", "ugc"]⟩,
       ⟨ "https://other.org/x", "X", []⟩]⟩ 1
    (by decide) (by decide) rfl
  constructor
  · rw [h.1.1]
    decide
  · rw [h.1.2]
    decide

/-- C1 counterexample: a 404 response means the task never reaches the
extraction stage, yet no error text is set anywhere in the record; only
the status code is recorded, refuting the claimed iff. -/
theorem c1_counter_non200 :
    analyze_url (fun _ => FetchResult.success 404 none) ⟨fun _ => "x", fun _ => "", "u"⟩ 1 "" =
      [ (statusKey 1, Value.str ""), (relKey 1, Value.str ""),
        ( "STATUS CODE", Value.int 404)] ∧
    ¬ errTexts (analyze_url (fun _ => FetchResult.success 404 none)
        ⟨fun _ => "x", fun _ => "", "u"⟩ 1 "") 1 ∧
    (∀ soup : Doc,
      FetchResult.success 404 none ≠ FetchResult.success 200 (some soup)) := by
  refine ⟨by decide, ?_, ?_⟩
  · intro h
    rcases h with h | ⟨m, h⟩
    · have e : rget (analyze_url (fun _ => FetchResult.success 404 none)
          ⟨fun _ => "x", fun _ => "", "u"⟩ 1 "") (statusKey 1) = some (Value.str "") := by decide
      exact absurd (e.symm.trans h) (by decide)
    · have e : rget (analyze_url (fun _ => FetchResult.success 404 none)
          ⟨fun _ => "x", fun _ => "", "u"⟩ 1 "") (statusKey 1) = some (Value.str "") := by decide
      have h3 : ( "" : String) = "Request error: " ++ m :=
        Value.str.inj (Option.some.inj (e.symm.trans h))
      exact str_empty_ne_app "Request error: " m 'R' rfl h3
  · intro soup h
    simp at h

/-- C1 (amended): an error text appears in the status cell exactly when
the fetch raised or the 200 body was unparseable; a non-200 response sets
only the status code and no error text; and in every case where the
extraction stage is not reached the extraction cells are absent and the
rel cell stays empty.  The embedded analyze_url is a total function, so no
exception reaches the caller. -/
theorem c1_error_iff_failure (fetch : String → FetchResult) (row : Row) (root : String)
    (i : Nat)
    (hi : i = 1 ∨ i = 2 ∨ i = 3)
    (ht : ¬ pyStrip (row.target i) = "") :
    (errTexts (analyze_url fetch row i root) i ↔
      ((∃ m, fetch (pyStrip row.pageUrl) = FetchResult.error m) ∨
       fetch (pyStrip row.pageUrl) = FetchResult.success 200 none)) ∧
    ((∀ soup : Doc, fetch (pyStrip row.pageUrl) ≠ FetchResult.success 200 (some soup)) →
      (∀ k ∈ extractionKeys, rget (analyze_url fetch row i root) k = none) ∧
      rget (analyze_url fetch row i root) (relKey i) = some (Value.str "")) := by
  rcases hi with rfl | rfl | rfl <;>
  · cases hfe : fetch (pyStrip row.pageUrl) with
    | error m =>
        have hrec := analyze_error_record fetch row root m _ (by decide) ht hfe
        refine ⟨⟨fun _ => Or.inl ⟨m, rfl⟩, fun _ => Or.inr ⟨m, by rw [hrec]; rfl⟩⟩, fun _ => ?_⟩
        constructor
        · intro k hk
          rw [hrec]
          simp only [extractionKeys] at hk
          fin_cases hk <;> rfl
        · rw [hrec]
          rfl
    | success code page =>
        by_cases hc : code = 200
        · subst hc
          cases page with
          | none =>
              have hrec := analyze_parsefail_record fetch row root _ (by decide) ht hfe
              refine ⟨⟨fun _ => Or.inr rfl, fun _ => Or.inl (by rw [hrec]; rfl)⟩, fun _ => ?_⟩
              constructor
              · intro k hk
                rw [hrec]
                simp only [extractionKeys] at hk
                fin_cases hk <;> rfl
              · rw [hrec]
                rfl
          | some soup =>
              have hcell := success_status_cell fetch row root soup _ (by decide) ht hfe
              constructor
              · constructor
                · intro herr
                  exfalso
                  rcases herr with h | ⟨m, h⟩
                  · rw [hcell] at h
                    have h2 := Value.str.inj (Option.some.inj h)
                    cases hfind : soup.anchors.find?
                        (qual (pyStrip row.pageUrl) (registeredDomain root)
                          (pyStrip (row.target _))) with
                    | some a =>
                        rw [hfind] at h2
                        exact (statusText_ne_err _ "" a).1 h2
                    | none =>
                        rw [hfind] at h2
                        exact (lnf_ne_err "").1 h2
                  · rw [hcell] at h
                    have h2 := Value.str.inj (Option.some.inj h)
                    cases hfind : soup.anchors.find?
                        (qual (pyStrip row.pageUrl) (registeredDomain root)
                          (pyStrip (row.target _))) with
                    | some a =>
                        rw [hfind] at h2
                        exact (statusText_ne_err _ m a).2 h2
                    | none =>
                        rw [hfind] at h2
                        exact (lnf_ne_err m).2 h2
                · intro hr
                  exfalso
                  rcases hr with ⟨m, hm⟩ | h
                  · exact FetchResult.noConfusion hm
                  · simp at h
              · intro hno
                exact absurd rfl (hno soup)
        · have hrec := analyze_non200_record fetch row root code page _ (by decide) ht hfe hc
          constructor
          · constructor
            · intro herr
              exfalso
              rcases herr with h | ⟨m, h⟩
              · rw [hrec, rget_cons_self] at h
                exact absurd (Value.str.inj (Option.some.inj h)) (by decide)
              · rw [hrec, rget_cons_self] at h
                exact str_empty_ne_app "Request error: " m 'R' rfl
                  (Value.str.inj (Option.some.inj h))
            · intro hr
              exfalso
              rcases hr with ⟨m, hm⟩ | hparse
              · exact FetchResult.noConfusion hm
              · injection hparse with h1 _
                exact hc h1
          · intro _
            constructor
            · intro k hk
              rw [hrec]
              simp only [extractionKeys] at hk
              fin_cases hk <;> rfl
            · rw [hrec]
              rfl

/-- Witness for c1_error_iff_failure: a raised request exception yields an
error text in the status cell. -/
theorem c1_error_iff_failure_witness :
    ¬ pyStrip ((⟨fun _ => "x", fun _ => "", "u"⟩ : Row).target 1) = "" ∧
    errTexts (analyze_url (fun _ => FetchResult.error "boom")
      ⟨fun _ => "x", fun _ => "", "u"⟩ 1 "") 1 :=
  ⟨by decide,
   (c1_error_iff_failure (fun _ => FetchResult.error "boom") ⟨fun _ => "x", fun _ => "", "u"⟩
     "" 1 (by decide) (by decide)).1.mpr (Or.inl ⟨ "boom", rfl⟩)⟩

/-- C3 counterexample: with two input rows and a row limit of one, the run
returns a single record, so the count of records is not the task count. -/
theorem c3_counter_row_limit :
    (process_rows (fun _ => FetchResult.error "x")
      [⟨fun _ => "", fun _ => "", ""⟩, ⟨fun _ => "", fun _ => "", ""⟩] 1 "").length = 1 ∧
    ([(⟨fun _ => "", fun _ => "", ""⟩ : Row), ⟨fun _ => "", fun _ => "", ""⟩]).length = 2 ∧
    (1 : Nat) ≠ 2 := by
  refine ⟨?_, rfl, by decide⟩
  rfl

/-- C3 (amended): the run returns one record per row among the first
min(limit, N) rows, in input order, and exactly that many records; rows
beyond the configured row limit produce no record, and the records carry
no page URL column. -/
theorem c3_min_limit_records (fetch : String → FetchResult) (df : List Row) (limit : Nat)
    (root : String) :
    process_rows fetch df limit root = (df.take limit).map (row_result fetch root) ∧
    (process_rows fetch df limit root).length = min limit df.length := by
  have haux : ∀ (rows : List Row) (idx : Nat),
      process_rows_aux fetch root limit idx rows =
        (rows.take (limit - idx)).map (row_result fetch root) := by
    intro rows
    induction rows with
    | nil => intro idx; simp [process_rows_aux]
    | cons r rest ih =>
        intro idx
        by_cases h : limit ≤ idx
        · have e : limit - idx = 0 := Nat.sub_eq_zero_of_le h
          simp [process_rows_aux, h, e]
        · have e : limit - idx = (limit - (idx + 1)) + 1 := by omega
          simp [process_rows_aux, h, e, ih (idx + 1), List.take_succ_cons]
  have h0 : process_rows fetch df limit root = (df.take limit).map (row_result fetch root) := by
    have := haux df 0
    simpa using this
  refine ⟨h0, ?_⟩
  rw [h0, List.length_map, List.length_take]

/-- A single-slot event block is empty or one start-done pair. -/
theorem okBlock_analyze (row : Row) (i : Nat) : okBlock (analyze_events row i) := by
  unfold analyze_events
  split
  · exact Or.inl rfl
  · exact Or.inr ⟨pyStrip row.pageUrl, rfl⟩

/-- Every decomposition point of a join of single-fetch blocks sees at
most one fetch in flight, and never a negative count. -/
theorem blocks_bound : ∀ (bs : List (List Ev)), (∀ b ∈ bs, okBlock b) →
    ∀ (p q : List Ev), bs.flatten = p ++ q → 0 ≤ inFlight p ∧ inFlight p ≤ 1 := by
  intro bs
  induction bs with
  | nil =>
      intro _ p q hpq
      have hp : p = [] ∧ q = [] := List.append_eq_nil.mp (by simpa using hpq.symm)
      rw [hp.1]
      exact ⟨le_refl 0, by norm_num [inFlight]⟩
  | cons b bs ih =>
      intro hok p q hpq
      have hokb := hok b (List.mem_cons_self b bs)
      have hokr : ∀ x ∈ bs, okBlock x := fun x hx => hok x (List.mem_cons_of_mem b hx)
      rcases hokb with rfl | ⟨u, rfl⟩
      · exact ih hokr p q (by simpa using hpq)
      · have hpq2 : Ev.start u :: Ev.done u :: bs.flatten = p ++ q := by simpa using hpq
        cases p with
        | nil => exact ⟨le_refl 0, by norm_num [inFlight]⟩
        | cons e p2 =>
            rw [List.cons_append] at hpq2
            injection hpq2 with he hpq3
            cases p2 with
            | nil =>
                rw [← he]
                norm_num [inFlight]
            | cons e2 p3 =>
                rw [List.cons_append] at hpq3
                injection hpq3 with he2 hpq4
                have hres := ih hokr p3 q hpq4
                rw [← he, ← he2]
                have e3 : inFlight (Ev.start u :: Ev.done u :: p3) = inFlight p3 := by
                  simp [inFlight]
                rw [e3]
                exact hres

/-- The event trace of a run is a join of single-fetch blocks. -/
theorem process_events_blocks (limit : Nat) : ∀ (rows : List Row) (idx : Nat),
    ∃ bs : List (List Ev), (∀ b ∈ bs, okBlock b) ∧
      process_events_aux limit idx rows = bs.flatten := by
  intro rows
  induction rows with
  | nil => intro idx; exact ⟨[], by simp, by simp [process_events_aux]⟩
  | cons r rest ih =>
      intro idx
      by_cases h : limit ≤ idx
      · exact ⟨[], by simp, by simp [process_events_aux, h]⟩
      · obtain ⟨bs, hok, he⟩ := ih (idx + 1)
        refine ⟨analyze_events r 1 :: analyze_events r 2 :: analyze_events r 3 :: bs, ?_, ?_⟩
        · intro b hb
          rcases List.mem_cons.mp hb with rfl | hb
          · exact okBlock_analyze r 1
          rcases List.mem_cons.mp hb with rfl | hb
          · exact okBlock_analyze r 2
          rcases List.mem_cons.mp hb with rfl | hb
          · exact okBlock_analyze r 3
          exact hok b hb
        · simp [process_events_aux, h, row_events, he, List.append_assoc]

/-- C8: the runner issues fetches strictly sequentially, so along every
prefix of the event trace of a run at most one fetch is in flight; hence
any configured bound of at least one is respected. -/
theorem c8_inflight_bound (df : List Row) (limit M : Nat) (p q : List Ev)
    (hM : 1 ≤ M)
    (hsplit : process_events df limit = p ++ q) :
    inFlight p ≤ (M : Int) := by
  obtain ⟨bs, hok, he⟩ := process_events_blocks limit df 0
  have hb := blocks_bound bs hok p q (by rw [← he]; exact hsplit)
  have hM2 : (1 : Int) ≤ (M : Int) := by exact_mod_cast hM
  omega

/-- Witness for c8_inflight_bound: a one-row run under a bound of one,
split right after the first fetch completes. -/
theorem c8_inflight_bound_witness :
    (1 : Nat) ≤ 1 ∧
    process_events [⟨fun _ => "x", fun _ => "", "u"⟩] 1 =
      [Ev.start "u", Ev.done "u"] ++
        [Ev.start "u", Ev.done "u", Ev.start "u", Ev.done "u"] ∧
    inFlight [Ev.start "u", Ev.done "u"] ≤ ((1 : Nat) : Int) :=
  ⟨by decide, by decide,
   c8_inflight_bound [⟨fun _ => "x", fun _ => "", "u"⟩] 1 1 [Ev.start "u", Ev.done "u"]
     [Ev.start "u", Ev.done "u", Ev.start "u", Ev.done "u"] (by decide) (by decide)⟩
